import Mathlib

/-!
# Verification of the Identity & Session Control Core

A shallow embedding, in Lean 4, of the security-relevant modules of the
Zero-Trust-Website repository:

* `src/backend/rate_limiter.rs`   (`RateLimiter::allow_request`)
* `src/backend/auth.rs`           (`AuthDB`, `generate_jwt`, `verify_jwt`)
* `src/backend/session_management.rs` (`SessionStore`, its ad hoc `sha256`)
* `src/backend/access_control.rs` (`AccessControl::has_permission`)

Rust strings are modelled as lists of bytes (`Str := List Nat`, each entry a
UTF-8 code unit `< 256`); the system clock, which the Rust code reads through
`SystemTime::now()`, is passed to each operation as an explicit `Nat` of Unix
seconds; the process-wide mutable `HashMap`s become association lists threaded
through the operations.  `SystemTime::elapsed` is `now - then` on `Nat`:
truncated subtraction yields `0` when the clock ran backwards, which coincides
with the code's `unwrap_or` defaults in every branch where `elapsed` is used.

The external crypto crates are treated as follows: `sha2`/`hmac`
(`Hmac<Sha256>`) are embedded as a full executable SHA-256/HMAC over byte
lists; the `base64` crate's default (standard alphabet, padded) `encode` /
`decode` are embedded directly; the memory-hard `argon2` crate is modelled by
its defining contract — `hash_encoded` packages the salt and password, and
`verify_encoded` succeeds exactly when the password matches (hash collisions
are ignored).  The ad hoc `sha256` that `session_management.rs` defines
itself is embedded separately, byte for byte.
-/

/-- Rust strings viewed as byte lists (UTF-8 code units). -/
abbrev Str : Type := List Nat

/-- Embed an ASCII string literal as its byte list. -/
def str (s : String) : Str := s.data.map Char.toNat

/-- A well-formed byte string: every entry is a byte. -/
def isBytes (l : List Nat) : Prop := ∀ b ∈ l, b < 256

instance (l : List Nat) : Decidable (isBytes l) := by
  unfold isBytes; infer_instance

/-- Decimal digits (ASCII) of a natural number; the semantics of Rust's
`format!("{}", n)` on an unsigned integer. -/
def natDigitsAux : Nat → Nat → List Nat → List Nat
  | 0, _, acc => acc
  | fuel + 1, n, acc =>
    if n < 10 then (48 + n) :: acc
    else natDigitsAux fuel (n / 10) ((48 + n % 10) :: acc)

/-- Decimal representation of `n` as ASCII bytes. -/
def natDigits (n : Nat) : List Nat := natDigitsAux (n + 1) n []

/-- Lookup in an association list (`HashMap::get`). -/
def alistFind {α : Type} [DecidableEq α] {β : Type} : List (α × β) → α → Option β
  | [], _ => none
  | (k, v) :: rest, key => if k = key then some v else alistFind rest key

/-- Insert-or-replace (`HashMap::insert`, and writes through
`Entry::or_insert`). -/
def alistPut {α : Type} [DecidableEq α] {β : Type} : List (α × β) → α → β → List (α × β)
  | [], key, v => [(key, v)]
  | (k, w) :: rest, key, v =>
    if k = key then (key, v) :: rest else (k, w) :: alistPut rest key v

/-- Deletion (`HashMap::remove`). -/
def alistRemove {α : Type} [DecidableEq α] {β : Type} : List (α × β) → α → List (α × β)
  | [], _ => []
  | (k, w) :: rest, key => if k = key then rest else (k, w) :: alistRemove rest key

/-! ## 32-bit helpers

The Rust modules compute on `u32`; machine words are `Nat` reduced modulo
`2 ^ 32` wherever overflow can occur. -/

/-- Truncate to a `u32`. -/
def w32 (x : Nat) : Nat := x % 4294967296

/-- `u32::rotate_right` (on values `< 2 ^ 32`). -/
def rotr32 (n x : Nat) : Nat := w32 ((x >>> n) ||| (x <<< (32 - n)))

/-- `u32::rotate_left` (on values `< 2 ^ 32`). -/
def rotl32 (n x : Nat) : Nat := w32 ((x <<< n) ||| (x >>> (32 - n)))

/-- Big-endian bytes of a `u32` (`u32::to_be_bytes`). -/
def wordToBytes (w : Nat) : List Nat :=
  [w / 16777216 % 256, w / 65536 % 256, w / 256 % 256, w % 256]

/-! ## The `sha2` and `hmac` crates: SHA-256 and `Hmac<Sha256>` -/

namespace Sha2

/-- The SHA-256 round constants. -/
def K : List Nat :=
  [1116352408, 1899447441, 3049323471, 3921009573, 961987163,
   1508970993, 2453635748, 2870763221, 3624381080, 310598401,
   607225278, 1426881987, 1925078388, 2162078206, 2614888103,
   3248222580, 3835390401, 4022224774, 264347078, 604807628,
   770255983, 1249150122, 1555081692, 1996064986, 2554220882,
   2821834349, 2952996808, 3210313671, 3336571891, 3584528711,
   113926993, 338241895, 666307205, 773529912, 1294757372,
   1396182291, 1695183700, 1986661051, 2177026350, 2456956037,
   2730485921, 2820302411, 3259730800, 3345764771, 3516065817,
   3600352804, 4094571909, 275423344, 430227734, 506948616,
   659060556, 883997877, 958139571, 1322822218, 1537002063,
   1747873779, 1955562222, 2024104815, 2227730452, 2361852424,
   2428436474, 2756734187, 3204031479, 3329325298]

/-- The SHA-256 initial hash value. -/
def H0 : List Nat :=
  [1779033703, 3144134277, 1013904242, 2773480762,
   1359893119, 2600822924, 528734635, 1541459225]

/-- `Ch(e, f, g)`; 32-bit complement is xor with the all-ones mask. -/
def ch (e f g : Nat) : Nat := (e &&& f) ^^^ ((e ^^^ 4294967295) &&& g)

/-- `Maj(a, b, c)`. -/
def maj (a b c : Nat) : Nat := (a &&& b) ^^^ (a &&& c) ^^^ (b &&& c)

def bigSigma0 (a : Nat) : Nat := rotr32 2 a ^^^ rotr32 13 a ^^^ rotr32 22 a

def bigSigma1 (e : Nat) : Nat := rotr32 6 e ^^^ rotr32 11 e ^^^ rotr32 25 e

def smallSigma0 (x : Nat) : Nat := rotr32 7 x ^^^ rotr32 18 x ^^^ (x >>> 3)

def smallSigma1 (x : Nat) : Nat := rotr32 17 x ^^^ rotr32 19 x ^^^ (x >>> 10)

/-- Big-endian bytes of a `u64` (the padded bit length). -/
def be64 (n : Nat) : List Nat :=
  [n / 72057594037927936 % 256, n / 281474976710656 % 256,
   n / 1099511627776 % 256, n / 4294967296 % 256,
   n / 16777216 % 256, n / 65536 % 256, n / 256 % 256, n % 256]

/-- Merkle–Damgård padding to a multiple of 64 bytes. -/
def pad (msg : List Nat) : List Nat :=
  msg ++ 128 :: List.replicate ((119 - msg.length % 64) % 64) 0
      ++ be64 (msg.length * 8)

/-- Group bytes into big-endian 32-bit words. -/
def toWords : List Nat → List Nat
  | b0 :: b1 :: b2 :: b3 :: rest =>
    (b0 * 16777216 + b1 * 65536 + b2 * 256 + b3) :: toWords rest
  | _ => []

/-- Extend the 16 block words by `n` further schedule words.  The word list is
kept newest-first, so `w[i-2]` is at index 1, `w[i-7]` at 6, `w[i-15]` at 14
and `w[i-16]` at 15. -/
def extendAux : Nat → List Nat → List Nat
  | 0, ws => ws
  | n + 1, ws =>
    extendAux n
      (w32 (smallSigma1 (ws.getD 1 0) + ws.getD 6 0
          + smallSigma0 (ws.getD 14 0) + ws.getD 15 0) :: ws)

/-- The 64-word message schedule of one block. -/
def schedule (blockWords : List Nat) : List Nat :=
  (extendAux 48 blockWords.reverse).reverse

/-- One compression round; the state is the register list `[a,…,h]`. -/
def round (st : List Nat) (kw : Nat × Nat) : List Nat :=
  let a := st.getD 0 0
  let b := st.getD 1 0
  let c := st.getD 2 0
  let d := st.getD 3 0
  let e := st.getD 4 0
  let f := st.getD 5 0
  let g := st.getD 6 0
  let h := st.getD 7 0
  let t1 := w32 (h + bigSigma1 e + ch e f g + kw.1 + kw.2)
  let t2 := w32 (bigSigma0 a + maj a b c)
  [w32 (t1 + t2), a, b, c, w32 (d + t1), e, f, g]

/-- Compress one 64-byte block into the running hash state. -/
def compressBlock (hs : List Nat) (block : List Nat) : List Nat :=
  let ws := schedule (toWords block)
  let st := (K.zip ws).foldl round hs
  (hs.zip st).map fun p => w32 (p.1 + p.2)

/-- Split into 64-byte blocks (fuel-structural so that it reduces). -/
def chunks64Aux : Nat → List Nat → List (List Nat)
  | 0, _ => []
  | fuel + 1, l => if l.isEmpty then [] else l.take 64 :: chunks64Aux fuel (l.drop 64)

/-- SHA-256 of a byte list. -/
def sha256 (msg : List Nat) : List Nat :=
  let p := pad msg
  (((chunks64Aux p.length p).foldl compressBlock H0).map wordToBytes).flatten

/-- `Hmac<Sha256>` over byte lists: `mac.update(msg)` then `finalize`. -/
def hmacSha256 (key msg : List Nat) : List Nat :=
  let k0 := if key.length > 64 then sha256 key else key
  let k := k0 ++ List.replicate (64 - k0.length) 0
  sha256 ((k.map fun b => b ^^^ 92) ++ sha256 ((k.map fun b => b ^^^ 54) ++ msg))

end Sha2

/-! ## The `base64` crate: standard alphabet, padded (its default config) -/

namespace Base64

/-- The standard base64 alphabet, as ASCII bytes. -/
def alphabet : List Nat :=
  str "ABCDEFGHIJKLMNOPQRSTUVWXYZabcdefghijklmnopqrstuvwxyz0123456789+/"

/-- Byte of the character encoding a sextet. -/
def encByte (n : Nat) : Nat := alphabet.getD n 65

/-- Encode three input bytes per four output characters; `=` (61) pads. -/
def encodeChunks : List Nat → List Nat
  | [] => []
  | [a] => [encByte (a / 4), encByte (a % 4 * 16), 61, 61]
  | [a, b] => [encByte (a / 4), encByte (a % 4 * 16 + b / 16), encByte (b % 16 * 4), 61]
  | a :: b :: c :: rest =>
    encByte (a / 4) :: encByte (a % 4 * 16 + b / 16)
      :: encByte (b % 16 * 4 + c / 64) :: encByte (c % 64) :: encodeChunks rest

/-- `base64::encode`. -/
def encode (bs : List Nat) : Str := encodeChunks bs

/-- Sextet of an alphabet character; `none` off the alphabet. -/
def decByte (c : Nat) : Option Nat :=
  if 65 ≤ c ∧ c ≤ 90 then some (c - 65)
  else if 97 ≤ c ∧ c ≤ 122 then some (c - 71)
  else if 48 ≤ c ∧ c ≤ 57 then some (c + 4)
  else if c = 43 then some 62
  else if c = 47 then some 63
  else none

/-- Decode four characters per three bytes, final quantum possibly padded;
rejects stray characters, misplaced padding and nonzero trailing bits, as the
crate's default configuration does. -/
def decodeChunks : List Nat → Option (List Nat)
  | [] => some []
  | c1 :: c2 :: c3 :: c4 :: rest =>
    match decByte c1, decByte c2 with
    | some s1, some s2 =>
      if c3 = 61 then
        if c4 = 61 ∧ rest = [] ∧ s2 % 16 = 0 then some [s1 * 4 + s2 / 16] else none
      else
        match decByte c3 with
        | some s3 =>
          if c4 = 61 then
            if rest = [] ∧ s3 % 4 = 0 then
              some [s1 * 4 + s2 / 16, s2 % 16 * 16 + s3 / 4]
            else none
          else
            match decByte c4, decodeChunks rest with
            | some s4, some bs =>
              some ((s1 * 4 + s2 / 16) :: (s2 % 16 * 16 + s3 / 4)
                  :: (s3 % 4 * 64 + s4) :: bs)
            | _, _ => none
        | none => none
    | _, _ => none
  | _ => none

/-- `base64::decode`. -/
def decode (s : Str) : Option (List Nat) := decodeChunks s

end Base64

/-! ## `src/backend/rate_limiter.rs`

```rust
const MAX_REQUESTS_PER_MINUTE: u64 = 100;
const BLOCK_DURATION: u64 = 300; // 5 minutes
const BURST_THRESHOLD: u64 = 50; // Detects request bursts

struct RateLimiter { clients: Mutex<HashMap<String, (u64, SystemTime, bool)>> }
```
An entry is `(request count, last_request instant, is_blocked)`. -/

namespace RateLimiter

def MAX_REQUESTS_PER_MINUTE : Nat := 100

def BLOCK_DURATION : Nat := 300

def BURST_THRESHOLD : Nat := 50

/-- The `clients` map: identifier ↦ `(count, last_request, is_blocked)`. -/
abbrev State : Type := List (Str × (Nat × Nat × Bool))

/-- `RateLimiter::allow_request`, with the clock passed explicitly.  Returns
the boolean decision together with the updated `clients` map.

The Rust body, line for line: fetch-or-insert `(0, now, false)`; deny if
blocked and the block has not elapsed; reset the window when more than 60
seconds passed since `last_request`; increment the count; block (stamping
`last_request = now`) once the count exceeds `MAX_REQUESTS_PER_MINUTE`; deny
without blocking above `BURST_THRESHOLD`; otherwise allow. -/
def allow_request (st : State) (identifier : Str) (now : Nat) : Bool × State :=
  let e := (alistFind st identifier).getD (0, now, false)
  let count := e.1
  let last_request := e.2.1
  let is_blocked := e.2.2
  if is_blocked = true ∧ now - last_request < BLOCK_DURATION then
    (false, alistPut st identifier (count, last_request, is_blocked))
  else
    let count := if now - last_request > 60 then 0 else count
    let last_request := if now - last_request > 60 then now else last_request
    let count := count + 1
    if count > MAX_REQUESTS_PER_MINUTE then
      (false, alistPut st identifier (count, now, true))
    else if count > BURST_THRESHOLD then
      (false, alistPut st identifier (count, last_request, is_blocked))
    else
      (true, alistPut st identifier (count, last_request, is_blocked))

/-- Run a sequence of `allow_request` calls, collecting the decisions. -/
def runCalls (st : State) : List (Str × Nat) → List Bool × State
  | [] => ([], st)
  | (id, t) :: rest =>
    let r := allow_request st id t
    let rr := runCalls r.2 rest
    (r.1 :: rr.1, rr.2)

end RateLimiter

/-! ## `src/backend/auth.rs`

```rust
const MAX_FAILED_ATTEMPTS: u8 = 5;
const TOKEN_EXPIRATION: u64 = 3600; // 1 hour in seconds
const MFA_SECRET: &str = "super_secure_mfa_secret";
```
-/

namespace Auth

def MAX_FAILED_ATTEMPTS : Nat := 5

def TOKEN_EXPIRATION : Nat := 3600

def MFA_SECRET : Str := str "super_secure_mfa_secret"

/-- The opaque encoded hash produced by `argon2::hash_encoded` (external
crate, modelled by its contract: it determines the salt and the hashed
password). -/
structure Argon2Hash where
  salt : List Nat
  password : Str
deriving DecidableEq

/-- Contract model of `argon2::hash_encoded(password, salt, config)`. -/
def hash_encoded (password : Str) (salt : List Nat) : Argon2Hash := ⟨salt, password⟩

/-- Contract model of `argon2::verify_encoded(hash, password)`: succeeds
exactly when the password matches (collisions ignored). -/
def verify_encoded (h : Argon2Hash) (password : Str) : Bool := h.password == password

/-- `User` struct storing authentication details. -/
structure User where
  username : Str
  password_hash : Argon2Hash
  role : Str
  failed_attempts : Nat
  last_failed_attempt : Nat
  is_locked : Bool
deriving DecidableEq

/-- The `AuthDB` user table. -/
abbrev AuthDB : Type := List (Str × User)

/-- `AuthDB::register_user`, with the random salt and the clock passed
explicitly.  Note that the Rust body unconditionally `insert`s: a second
registration under the same username replaces the stored record. -/
def register_user (db : AuthDB) (username password role : Str)
    (salt : List Nat) (now : Nat) : AuthDB :=
  alistPut db username
    { username := username
      password_hash := hash_encoded password salt
      role := role
      failed_attempts := 0
      last_failed_attempt := now
      is_locked := false }

/-- `generate_jwt`: `base64(header) . base64(payload) . base64(hmac)`, the
payload embedding the subject and `now + TOKEN_EXPIRATION`. -/
def generate_jwt (username : Str) (now : Nat) : Str :=
  let header := Base64.encode (str "\x7b\"alg\":\"HS256\",\"typ\":\"JWT\"\x7d")
  let payload := Base64.encode
    (str "\x7b\"sub\":\"" ++ username ++ str "\",\"exp\":"
      ++ natDigits (now + TOKEN_EXPIRATION) ++ str "\x7d")
  let signature := Base64.encode
    (Sha2.hmacSha256 MFA_SECRET (header ++ [46] ++ payload))
  header ++ [46] ++ payload ++ [46] ++ signature

/-- `verify_jwt`: split on `'.'`, require three parts, recompute the HMAC
over `parts[0].parts[1]` and compare with the decoded `parts[2]`.  The
function never consults a clock: the embedded expiry is not checked. -/
def verify_jwt (token : Str) : Bool :=
  let parts := token.splitOn 46
  if parts.length ≠ 3 then false
  else
    match Base64.decode (parts.getD 2 []) with
    | some decoded_sig =>
      Sha2.hmacSha256 MFA_SECRET (parts.getD 0 [] ++ [46] ++ parts.getD 1 [])
        == decoded_sig
    | none => false

/-- `AuthDB::authenticate_user`, with the clock passed explicitly.  Returns
the `Result` together with the updated user table. -/
def authenticate_user (db : AuthDB) (username password : Str) (now : Nat) :
    Except Str Str × AuthDB :=
  match alistFind db username with
  | some user =>
    if user.is_locked then
      (Except.error (str "Account locked due to too many failed attempts."), db)
    else if verify_encoded user.password_hash password then
      (Except.ok (generate_jwt username now),
        alistPut db username { user with failed_attempts := 0 })
    else
      let fa := (user.failed_attempts + 1) % 256
      (Except.error (str "Invalid username or password."),
        alistPut db username
          { user with
              failed_attempts := fa
              last_failed_attempt := now
              is_locked := if MAX_FAILED_ATTEMPTS ≤ fa then true else user.is_locked })
  | none => (Except.error (str "User not found."), db)

/-- Run a sequence of `authenticate_user` calls (one per listed instant) with
a fixed username and password, keeping the final user table. -/
def authAttempts (db : AuthDB) (username password : Str) : List Nat → AuthDB
  | [] => db
  | t :: ts => authAttempts (authenticate_user db username password t).2 username password ts

end Auth

/-! ## `src/backend/session_management.rs`

```rust
const SESSION_EXPIRATION: u64 = 3600; // 1-hour session timeout
const SECRET_KEY: &str = "super_secure_session_secret";
```
-/

namespace SessionManagement

def SESSION_EXPIRATION : Nat := 3600

def SECRET_KEY : Str := str "super_secure_session_secret"

/-- The module's own ad hoc `sha256` (it is *not* SHA-256): a wrapping-add /
rotate-xor fold into one `u32` accumulator, whose big-endian bytes repeated
eight times form the 32-byte "hash". -/
def sha256 (data : List Nat) : List Nat :=
  let accumulator :=
    data.foldl (fun acc byte =>
      let a := (acc + byte) % 4294967296
      a ^^^ rotl32 5 a) 0x6A09E667
  ((List.replicate 8 (wordToBytes accumulator)).flatten).take 32

/-- The session table: token ↦ `(user, expiry, ip)`. -/
abbrev Store : Type := List (Str × (Str × Nat × Str))

/-- One byte under Rust's `{:x?}` debug-hex: minimal lowercase hex digits. -/
def hexByteDebug (b : Nat) : List Nat :=
  let hexDigit := fun d => if d < 10 then 48 + d else 87 + d
  if b < 16 then [hexDigit b] else [hexDigit (b / 16), hexDigit (b % 16)]

/-- Join pieces with the `", "` separator (bytes 44, 32). -/
def commaJoin : List (List Nat) → List Nat
  | [] => []
  | [l] => l
  | l :: rest => l ++ 44 :: 32 :: commaJoin rest

/-- Rust's `format!("{:x?}", bytes)` on a byte array:
`[aa, b, cc, …]` — bracketed, comma-space separated, lowercase hex. -/
def hexDebug (bs : List Nat) : Str :=
  91 :: commaJoin (bs.map hexByteDebug) ++ [93]

/-- `SessionStore::create_session`: build the JSON payload embedding subject,
expiry and IP, append `'.'` and the debug-hex of the ad hoc hash, and record
the session under the full token. -/
def create_session (store : Store) (username ip : Str) (now : Nat) : Str × Store :=
  let expiry := now + SESSION_EXPIRATION
  let payload :=
    str "\x7b\"sub\":\"" ++ username ++ str "\",\"exp\":" ++ natDigits expiry
      ++ str ",\"ip\":\"" ++ ip ++ str "\"\x7d"
  let token := payload ++ [46] ++ hexDebug (sha256 payload)
  (token, alistPut store token (username, expiry, ip))

/-- `SessionStore::verify_session`: split on `'.'`, require exactly two
parts, check the hash of the first part against the second, then look the
token up and check expiry and issuing IP. -/
def verify_session (store : Store) (token ip : Str) (now : Nat) : Bool :=
  let parts := token.splitOn 46
  if parts.length ≠ 2 then false
  else if parts.getD 1 [] ≠ hexDebug (sha256 (parts.getD 0 [])) then false
  else
    match alistFind store token with
    | some (_, expiry, session_ip) =>
      if expiry < now then false
      else if session_ip ≠ ip then false
      else true
    | none => false

/-- `SessionStore::revoke_session`. -/
def revoke_session (store : Store) (token : Str) : Store :=
  alistRemove store token

end SessionManagement

/-! ## `src/backend/access_control.rs` -/

namespace AccessControl

/-- Defines user roles and associated permissions. -/
structure Role where
  name : Str
  permissions : List Str
deriving DecidableEq

/-- `AccessControl::new()`: the initial role table. -/
def new : List (Str × Role) :=
  [(str "admin", { name := str "admin", permissions := [str "ALL"] }),
   (str "user", { name := str "user", permissions := [str "READ", str "WRITE"] }),
   (str "guest", { name := str "guest", permissions := [str "READ"] })]

/-- `AccessControl::has_permission`: allowed iff the role is present and its
permission list contains `"ALL"` or the exact action. -/
def has_permission (roles : List (Str × Role)) (role action : Str) : Bool :=
  match alistFind roles role with
  | some role_data =>
    role_data.permissions.contains (str "ALL") || role_data.permissions.contains action
  | none => false

end AccessControl

/-! # Theorems

First the supporting lemmas, then one theorem per claim (with witnesses where
the statement carries hypotheses). -/

theorem natDigitsAux_mem {fuel n : Nat} {acc : List Nat}
    (hacc : ∀ b ∈ acc, 48 ≤ b ∧ b ≤ 57) :
    ∀ b ∈ natDigitsAux fuel n acc, 48 ≤ b ∧ b ≤ 57 := by
  induction fuel generalizing n acc with
  | zero => exact hacc
  | succ fuel ih =>
    intro b hb
    unfold natDigitsAux at hb
    split at hb
    · rw [List.mem_cons] at hb
      rcases hb with h | h
      · omega
      · exact hacc _ h
    · refine ih (fun c hc => ?_) b hb
      rw [List.mem_cons] at hc
      rcases hc with h | h
      · have := Nat.mod_lt n (show 0 < 10 by omega)
        omega
      · exact hacc _ h

/-- Every byte of a decimal rendering is an ASCII digit. -/
theorem natDigits_mem {n : Nat} : ∀ b ∈ natDigits n, 48 ≤ b ∧ b ≤ 57 :=
  natDigitsAux_mem (by simp)

theorem natDigits_isBytes (n : Nat) : isBytes (natDigits n) := by
  intro b hb
  have := natDigits_mem b hb
  omega

theorem natDigits_no_dot (n : Nat) : (46 : Nat) ∉ natDigits n := by
  intro h
  have := natDigits_mem 46 h
  omega

theorem alistFind_put {α : Type} [DecidableEq α] {β : Type}
    (l : List (α × β)) (key key' : α) (v : β) :
    alistFind (alistPut l key v) key' = if key = key' then some v else alistFind l key' := by
  induction l with
  | nil => by_cases h : key = key' <;> simp [alistPut, alistFind, h]
  | cons kv rest ih =>
    obtain ⟨k, w⟩ := kv
    by_cases hk : k = key
    · by_cases h : key = key' <;> simp [alistPut, alistFind, hk, h]
    · by_cases h : k = key'
      · have hne : ¬ key = key' := fun he => hk (he ▸ h)
        simp [alistPut, alistFind, hk, h, hne, Ne.symm hne]
      · simp [alistPut, alistFind, hk, h, ih]

theorem alistFind_put_same {α : Type} [DecidableEq α] {β : Type}
    (l : List (α × β)) (key : α) (v : β) :
    alistFind (alistPut l key v) key = some v := by
  simp [alistFind_put]

theorem alistFind_put_other {α : Type} [DecidableEq α] {β : Type}
    (l : List (α × β)) {key key' : α} (v : β) (h : key ≠ key') :
    alistFind (alistPut l key v) key' = alistFind l key' := by
  simp [alistFind_put, h]

namespace RateLimiter

theorem runCalls_append (st : State) (l₁ l₂ : List (Str × Nat)) :
    runCalls st (l₁ ++ l₂) =
      ((runCalls st l₁).1 ++ (runCalls (runCalls st l₁).2 l₂).1,
        (runCalls (runCalls st l₁).2 l₂).2) := by
  induction l₁ generalizing st with
  | nil => simp [runCalls]
  | cons c rest ih =>
    obtain ⟨id, t⟩ := c
    simp [runCalls, ih]

/-- One-step unfolding of `runCalls`. -/
theorem runCalls_cons (st : State) (id : Str) (t : Nat) (rest : List (Str × Nat)) :
    runCalls st ((id, t) :: rest)
      = ((allow_request st id t).1 :: (runCalls (allow_request st id t).2 rest).1,
         (runCalls (allow_request st id t).2 rest).2) := rfl

/-- First call from an unknown identifier: the entry is created and the call
is allowed. -/
theorem allow_request_absent (st : State) (id : Str) (now : Nat)
    (h : alistFind st id = none) :
    allow_request st id now = (true, alistPut st id (1, now, false)) := by
  unfold allow_request
  rw [h]
  simp [BLOCK_DURATION, MAX_REQUESTS_PER_MINUTE, BURST_THRESHOLD]

/-- A call inside the current window on an unblocked entry that stays at or
below the hard maximum: the count advances and the decision is the burst
check. -/
theorem allow_request_window (st : State) (id : Str) (now c tl : Nat)
    (h : alistFind st id = some (c, tl, false)) (hw : now - tl ≤ 60)
    (hc : c + 1 ≤ MAX_REQUESTS_PER_MINUTE) :
    allow_request st id now =
      (decide (c + 1 ≤ BURST_THRESHOLD), alistPut st id (c + 1, tl, false)) := by
  unfold allow_request
  rw [h]
  simp only [MAX_REQUESTS_PER_MINUTE, BURST_THRESHOLD, BLOCK_DURATION] at *
  have hw' : ¬ now - tl > 60 := by omega
  have hc' : ¬ c + 1 > 100 := by omega
  by_cases hb : c + 1 > 50 <;>
    simp [hw', hc', hb, decide_eq_false, decide_eq_true] <;> omega

/-- The call that pushes the count past the hard maximum: denied, and the
entry transitions to blocked with `last_request` stamped to `now`. -/
theorem allow_request_hits_max (st : State) (id : Str) (now c tl : Nat)
    (h : alistFind st id = some (c, tl, false)) (hw : now - tl ≤ 60)
    (hc : MAX_REQUESTS_PER_MINUTE < c + 1) :
    allow_request st id now = (false, alistPut st id (c + 1, now, true)) := by
  unfold allow_request
  rw [h]
  simp only [MAX_REQUESTS_PER_MINUTE, BLOCK_DURATION] at *
  have hw' : ¬ now - tl > 60 := by omega
  simp [hw', hc]

/-- A call on a blocked entry before the block duration elapsed: denied,
state untouched. -/
theorem allow_request_blocked (st : State) (id : Str) (now c tl : Nat)
    (h : alistFind st id = some (c, tl, true)) (hb : now - tl < BLOCK_DURATION) :
    allow_request st id now = (false, alistPut st id (c, tl, true)) := by
  unfold allow_request
  rw [h]
  simp [hb]

/-- A call on a blocked entry after the block duration elapsed: the 60-second
window check resets the count, the call is allowed — but the blocked flag is
never cleared, and `last_request` restarts at `now`. -/
theorem allow_request_blocked_elapsed (st : State) (id : Str) (now c tl : Nat)
    (h : alistFind st id = some (c, tl, true)) (hb : BLOCK_DURATION ≤ now - tl) :
    allow_request st id now = (true, alistPut st id (1, now, true)) := by
  unfold allow_request
  rw [h]
  simp only [BLOCK_DURATION, MAX_REQUESTS_PER_MINUTE, BURST_THRESHOLD] at *
  have h1 : ¬ now - tl < 300 := by omega
  have h2 : now - tl > 60 := by omega
  simp [h1, h2]

/-- A call on an unblocked entry whose window has elapsed: the window resets
and the call is allowed. -/
theorem allow_request_reset (st : State) (id : Str) (now c tl : Nat)
    (h : alistFind st id = some (c, tl, false)) (hw : 60 < now - tl) :
    allow_request st id now = (true, alistPut st id (1, now, false)) := by
  unfold allow_request
  rw [h]
  simp only [MAX_REQUESTS_PER_MINUTE, BURST_THRESHOLD, BLOCK_DURATION]
  simp [hw]

/-- After any single call, the state is an insert-or-replace of the called
identifier; every update written keeps the invariant "a count above the
maximum is only ever paired with a set blocked flag". -/
theorem allow_request_invariant (st : State) (idc : Str) (now : Nat)
    (h : ∀ id c tl b, alistFind st id = some (c, tl, b) →
          MAX_REQUESTS_PER_MINUTE < c → b = true) :
    ∀ id c tl b, alistFind (allow_request st idc now).2 id = some (c, tl, b) →
      MAX_REQUESTS_PER_MINUTE < c → b = true := by
  have finish : ∀ (c1 tl1 : Nat) (b1 : Bool),
      (MAX_REQUESTS_PER_MINUTE < c1 → b1 = true) →
      (allow_request st idc now).2 = alistPut st idc (c1, tl1, b1) →
      ∀ id c tl b, alistFind (allow_request st idc now).2 id = some (c, tl, b) →
        MAX_REQUESTS_PER_MINUTE < c → b = true := by
    intro c1 tl1 b1 hke heq id c tl b hfind hc
    rw [heq, alistFind_put] at hfind
    split at hfind
    · simp only [Option.some.injEq, Prod.mk.injEq] at hfind
      obtain ⟨rfl, _, rfl⟩ := hfind
      exact hke hc
    · exact h _ _ _ _ hfind hc
  rcases h0 : alistFind st idc with _ | ⟨⟨c0, tl0, b0⟩⟩
  · have heq := allow_request_absent st idc now h0
    exact finish 1 now false
      (by intro hk; exact absurd hk (by simp [MAX_REQUESTS_PER_MINUTE]))
      (by rw [heq])
  · cases b0 with
    | true =>
      by_cases hb : now - tl0 < BLOCK_DURATION
      · exact finish c0 tl0 true (fun _ => rfl)
          (by rw [allow_request_blocked st idc now c0 tl0 h0 hb])
      · exact finish 1 now true (fun _ => rfl)
          (by rw [allow_request_blocked_elapsed st idc now c0 tl0 h0 (by omega)])
    | false =>
      by_cases hw : 60 < now - tl0
      · exact finish 1 now false
          (by intro hk; exact absurd hk (by simp [MAX_REQUESTS_PER_MINUTE]))
          (by rw [allow_request_reset st idc now c0 tl0 h0 hw])
      · by_cases hm : c0 + 1 ≤ MAX_REQUESTS_PER_MINUTE
        · exact finish (c0 + 1) tl0 false (by intro hk; omega)
            (by rw [allow_request_window st idc now c0 tl0 h0 (by omega) hm])
        · exact finish (c0 + 1) now true (fun _ => rfl)
            (by rw [allow_request_hits_max st idc now c0 tl0 h0 (by omega) (by omega)])

/-- The invariant of `allow_request_invariant` holds in every state reachable
from a given invariant-satisfying state. -/
theorem runCalls_invariant (calls : List (Str × Nat)) :
    ∀ st : State,
      (∀ id c tl b, alistFind st id = some (c, tl, b) →
        MAX_REQUESTS_PER_MINUTE < c → b = true) →
      ∀ id c tl b, alistFind (runCalls st calls).2 id = some (c, tl, b) →
        MAX_REQUESTS_PER_MINUTE < c → b = true := by
  induction calls with
  | nil => intro st h; exact h
  | cons call rest ih =>
    intro st h
    obtain ⟨idc, t⟩ := call
    exact ih _ (allow_request_invariant st idc t h)

/-- Running `n` same-instant calls on an unblocked in-window entry: each call
increments the count and the decision is the burst check. -/
theorem runCalls_window (n : Nat) :
    ∀ (st : State) (id : Str) (t c : Nat),
      alistFind st id = some (c, t, false) → c + n ≤ MAX_REQUESTS_PER_MINUTE →
      (runCalls st (List.replicate n (id, t))).1
          = (List.range n).map (fun i => decide (c + i + 1 ≤ BURST_THRESHOLD))
      ∧ alistFind (runCalls st (List.replicate n (id, t))).2 id
          = some (c + n, t, false) := by
  induction n with
  | zero => intro st id t c h _; simpa [runCalls] using h
  | succ n ih =>
    intro st id t c h hc
    have hstep := allow_request_window st id t c t h (by omega) (by omega)
    have hfind' : alistFind (alistPut st id (c + 1, t, false)) id
        = some (c + 1, t, false) := alistFind_put_same st id _
    have hrec := ih (alistPut st id (c + 1, t, false)) id t (c + 1) hfind' (by omega)
    constructor
    · simp only [List.replicate_succ, runCalls, hstep, hrec.1,
        List.range_succ_eq_map, List.map_cons, List.map_map, Function.comp]
      have h1 : decide (c + 1 ≤ BURST_THRESHOLD)
          = decide (c + 0 + 1 ≤ BURST_THRESHOLD) := decide_eq_decide.mpr (by omega)
      have h2 : List.map (fun i => decide (c + 1 + i + 1 ≤ BURST_THRESHOLD)) (List.range n)
          = List.map ((fun i => decide (c + i + 1 ≤ BURST_THRESHOLD)) ∘ Nat.succ)
              (List.range n) :=
        List.map_congr_left fun i _ => decide_eq_decide.mpr (by omega)
      rw [h1, h2]
    · simp only [List.replicate_succ, runCalls, hstep]
      have := hrec.2
      simpa [Nat.add_assoc, Nat.add_comm 1 n] using this

/-- Running `n` same-instant calls on a blocked entry: all denied, entry
untouched. -/
theorem runCalls_blocked (n : Nat) :
    ∀ (st : State) (id : Str) (t c : Nat),
      alistFind st id = some (c, t, true) →
      (runCalls st (List.replicate n (id, t))).1 = List.replicate n false
      ∧ alistFind (runCalls st (List.replicate n (id, t))).2 id
          = some (c, t, true) := by
  induction n with
  | zero => intro st id t c h; simpa [runCalls] using h
  | succ n ih =>
    intro st id t c h
    have hstep := allow_request_blocked st id t c t h (by simp [BLOCK_DURATION])
    have hrec := ih (alistPut st id (c, t, true)) id t c (alistFind_put_same st id _)
    simp only [List.replicate_succ, runCalls, hstep, hrec.1, hrec.2, and_self]

end RateLimiter

set_option maxRecDepth 8000 in
set_option maxHeartbeats 1000000 in
/-- C5: with `MAX_REQUESTS_PER_MINUTE = 100` per 60-second window and
`BURST_THRESHOLD = 50`, 105 calls to `allow_request` for one identifier
within a single window (here: at one instant `t`) return exactly 50 `true`
results followed by 55 `false` results; afterwards the identifier's entry is
blocked (the flag is set by the 101st call, the one whose count exceeds the
maximum), and every further call within `BLOCK_DURATION` of `t` is denied. -/
theorem C5_rate_limit_scenario (id : Str) (t : Nat) :
    (RateLimiter.runCalls [] (List.replicate 105 (id, t))).1
        = List.replicate 50 true ++ List.replicate 55 false
    ∧ alistFind (RateLimiter.runCalls [] (List.replicate 105 (id, t))).2 id
        = some (101, t, true)
    ∧ ∀ t', t' - t < RateLimiter.BLOCK_DURATION →
        (RateLimiter.allow_request
          (RateLimiter.runCalls [] (List.replicate 105 (id, t))).2 id t').1 = false := by
  have h1 : RateLimiter.allow_request [] id t = (true, alistPut [] id (1, t, false)) :=
    RateLimiter.allow_request_absent [] id t rfl
  have hph1 := RateLimiter.runCalls_window 99 (alistPut [] id (1, t, false)) id t 1
    (alistFind_put_same [] id _) (by simp [RateLimiter.MAX_REQUESTS_PER_MINUTE])
  have hf2 : alistFind
      (RateLimiter.runCalls (alistPut [] id (1, t, false)) (List.replicate 99 (id, t))).2 id
      = some (100, t, false) := by
    have h99 := hph1.2
    rw [(by norm_num : (1 : Nat) + 99 = 100)] at h99
    exact h99
  have h101 : RateLimiter.allow_request
      (RateLimiter.runCalls (alistPut [] id (1, t, false)) (List.replicate 99 (id, t))).2 id t
      = (false, alistPut
          (RateLimiter.runCalls (alistPut [] id (1, t, false)) (List.replicate 99 (id, t))).2
          id (101, t, true)) := by
    have h100 := RateLimiter.allow_request_hits_max _ id t 100 t hf2 (by omega)
      (by simp [RateLimiter.MAX_REQUESTS_PER_MINUTE])
    rw [(by norm_num : (100 : Nat) + 1 = 101)] at h100
    exact h100
  have hf3 : alistFind (alistPut
      (RateLimiter.runCalls (alistPut [] id (1, t, false)) (List.replicate 99 (id, t))).2
      id (101, t, true)) id = some (101, t, true) := alistFind_put_same _ id _
  have hph3 := RateLimiter.runCalls_blocked 4 _ id t 101 hf3
  have hlist : List.replicate 105 (id, t)
      = ((id, t) :: List.replicate 99 (id, t)) ++ ((id, t) :: List.replicate 4 (id, t)) := by
    rw [← List.replicate_succ, ← List.replicate_succ, ← List.replicate_add]
  have hrun : RateLimiter.runCalls [] (List.replicate 105 (id, t))
      = (true :: (List.range 99).map
            (fun i => decide (1 + i + 1 ≤ RateLimiter.BURST_THRESHOLD))
          ++ (false :: List.replicate 4 false),
         (RateLimiter.runCalls (alistPut
            (RateLimiter.runCalls (alistPut [] id (1, t, false)) (List.replicate 99 (id, t))).2
            id (101, t, true)) (List.replicate 4 (id, t))).2) := by
    rw [hlist, RateLimiter.runCalls_append, RateLimiter.runCalls_cons, h1]
    dsimp only
    rw [hph1.1, RateLimiter.runCalls_cons, h101]
    dsimp only
    rw [hph3.1]
  refine ⟨?_, ?_, ?_⟩
  · have hres : (true :: (List.range 99).map
        (fun i => decide (1 + i + 1 ≤ RateLimiter.BURST_THRESHOLD))
        ++ (false :: List.replicate 4 false))
        = List.replicate 50 true ++ List.replicate 55 false := by decide
    rw [hrun]
    exact hres
  · rw [hrun]
    dsimp only
    rw [hph3.2]
  · intro t' ht'
    rw [hrun]
    dsimp only
    rw [RateLimiter.allow_request_blocked _ id t' 101 t hph3.2 ht']

set_option maxRecDepth 8000 in
/-- Witness for C5 at `id = "client"`, `t = 0`, follow-up call at `t' = 299`. -/
theorem C5_witness :
    (RateLimiter.runCalls [] (List.replicate 105 (str "client", 0))).1
        = List.replicate 50 true ++ List.replicate 55 false
    ∧ alistFind (RateLimiter.runCalls [] (List.replicate 105 (str "client", 0))).2
        (str "client") = some (101, 0, true)
    ∧ (RateLimiter.allow_request
        (RateLimiter.runCalls [] (List.replicate 105 (str "client", 0))).2
        (str "client") 299).1 = false := by
  obtain ⟨a, b, c⟩ := C5_rate_limit_scenario (str "client") 0
  exact ⟨a, b, c 299 (by decide)⟩

/-- C9: in every state reachable by any sequence of `allow_request` calls
from the empty table, an entry whose count exceeds
`MAX_REQUESTS_PER_MINUTE` has its blocked flag set. -/
theorem C9_count_blocked_invariant (calls : List (Str × Nat)) (id : Str)
    (c tl : Nat) (b : Bool)
    (hfind : alistFind (RateLimiter.runCalls [] calls).2 id = some (c, tl, b))
    (hc : RateLimiter.MAX_REQUESTS_PER_MINUTE < c) : b = true :=
  RateLimiter.runCalls_invariant calls []
    (fun _ _ _ _ h _ => Option.noConfusion h) id c tl b hfind hc

set_option maxRecDepth 8000 in
/-- Witness for C9: 101 calls at one instant leave the entry at count 101
with the blocked flag set. -/
theorem C9_witness :
    alistFind (RateLimiter.runCalls [] (List.replicate 101 (str "client2", 0))).2
        (str "client2") = some (101, 0, true)
    ∧ RateLimiter.MAX_REQUESTS_PER_MINUTE < 101
    ∧ true = true := by
  refine ⟨by decide, by decide, ?_⟩
  exact C9_count_blocked_invariant (List.replicate 101 (str "client2", 0))
    (str "client2") 101 0 true (by decide) (by decide)

/-- C10: once an identifier's blocked flag is set, no later `allow_request`
call (on any identifier, at any instant) ever resets it; from a blocked
entry a call is allowed exactly when a full `BLOCK_DURATION` has elapsed
since `last_request`, and such an allowed call restamps the entry to
`(1, now, true)`, so every call within the next `BLOCK_DURATION` is denied
again — the identifier never permanently returns to the unblocked regime. -/
theorem C10_blocked_persistence (st : RateLimiter.State) (id id' : Str)
    (now now' c tl : Nat)
    (h : alistFind st id = some (c, tl, true)) :
    (∃ c' tl', alistFind (RateLimiter.allow_request st id' now).2 id
        = some (c', tl', true))
    ∧ ((RateLimiter.allow_request st id now).1 = true
        ↔ RateLimiter.BLOCK_DURATION ≤ now - tl)
    ∧ (RateLimiter.BLOCK_DURATION ≤ now - tl →
        (RateLimiter.allow_request st id now).2 = alistPut st id (1, now, true))
    ∧ (RateLimiter.BLOCK_DURATION ≤ now - tl → now' - now < RateLimiter.BLOCK_DURATION →
        (RateLimiter.allow_request
          (RateLimiter.allow_request st id now).2 id now').1 = false) := by
  refine ⟨?_, ?_, ?_, ?_⟩
  · by_cases hid : id' = id
    · subst hid
      by_cases hb : now - tl < RateLimiter.BLOCK_DURATION
      · rw [RateLimiter.allow_request_blocked st id' now c tl h hb]
        exact ⟨c, tl, alistFind_put_same st id' _⟩
      · rw [RateLimiter.allow_request_blocked_elapsed st id' now c tl h (by omega)]
        exact ⟨1, now, alistFind_put_same st id' _⟩
    · rcases h0 : alistFind st id' with _ | ⟨⟨c0, tl0, b0⟩⟩
      · rw [RateLimiter.allow_request_absent st id' now h0]
        exact ⟨c, tl, by rw [alistFind_put_other st _ hid, h]⟩
      · cases b0 with
        | true =>
          by_cases hb : now - tl0 < RateLimiter.BLOCK_DURATION
          · rw [RateLimiter.allow_request_blocked st id' now c0 tl0 h0 hb]
            exact ⟨c, tl, by rw [alistFind_put_other st _ hid, h]⟩
          · rw [RateLimiter.allow_request_blocked_elapsed st id' now c0 tl0 h0 (by omega)]
            exact ⟨c, tl, by rw [alistFind_put_other st _ hid, h]⟩
        | false =>
          by_cases hw : 60 < now - tl0
          · rw [RateLimiter.allow_request_reset st id' now c0 tl0 h0 hw]
            exact ⟨c, tl, by rw [alistFind_put_other st _ hid, h]⟩
          · by_cases hm : c0 + 1 ≤ RateLimiter.MAX_REQUESTS_PER_MINUTE
            · rw [RateLimiter.allow_request_window st id' now c0 tl0 h0 (by omega) hm]
              exact ⟨c, tl, by rw [alistFind_put_other st _ hid, h]⟩
            · rw [RateLimiter.allow_request_hits_max st id' now c0 tl0 h0 (by omega) (by omega)]
              exact ⟨c, tl, by rw [alistFind_put_other st _ hid, h]⟩
  · constructor
    · intro htrue
      by_contra hlt
      rw [RateLimiter.allow_request_blocked st id now c tl h (by omega)] at htrue
      exact Bool.noConfusion htrue
    · intro hge
      rw [RateLimiter.allow_request_blocked_elapsed st id now c tl h hge]
  · intro hge
    rw [RateLimiter.allow_request_blocked_elapsed st id now c tl h hge]
  · intro hge hlt
    rw [RateLimiter.allow_request_blocked_elapsed st id now c tl h hge]
    rw [RateLimiter.allow_request_blocked _ id now' 1 now (alistFind_put_same st id _) hlt]

/-- Witness for C10 at a concrete blocked entry. -/
theorem C10_witness :
    (∃ c' tl', alistFind
        (RateLimiter.allow_request [(str "c", (101, 0, true))] (str "c") 100).2 (str "c")
        = some (c', tl', true))
    ∧ ((RateLimiter.allow_request [(str "c", (101, 0, true))] (str "c") 300).1 = true
        ↔ RateLimiter.BLOCK_DURATION ≤ 300 - 0)
    ∧ (RateLimiter.allow_request
        (RateLimiter.allow_request [(str "c", (101, 0, true))] (str "c") 300).2
        (str "c") 599).1 = false := by
  refine ⟨(C10_blocked_persistence _ _ (str "c") 100 0 101 0 (by decide)).1,
    (C10_blocked_persistence _ (str "c") (str "c") 300 599 101 0 (by decide)).2.1, ?_⟩
  exact (C10_blocked_persistence _ (str "c") (str "c") 300 599 101 0 (by decide)).2.2.2
    (by decide) (by decide)

namespace Auth

/-- A call on a locked account: the locked error, table untouched. -/
theorem authenticate_locked (db : AuthDB) (u p : Str) (now : Nat) (usr : User)
    (hfind : alistFind db u = some usr) (hlock : usr.is_locked = true) :
    authenticate_user db u p now
      = (Except.error (str "Account locked due to too many failed attempts."), db) := by
  unfold authenticate_user
  rw [hfind]
  simp [hlock]

/-- A failed password check on an unlocked account: the invalid-credentials
error; the counter advances, the failure is timestamped, and the lock flag is
set exactly when the counter reaches `MAX_FAILED_ATTEMPTS`. -/
theorem authenticate_fail_step (db : AuthDB) (u p : Str) (now : Nat) (usr : User)
    (hfind : alistFind db u = some usr) (hlock : usr.is_locked = false)
    (hpw : usr.password_hash.password ≠ p) :
    authenticate_user db u p now
      = (Except.error (str "Invalid username or password."),
         alistPut db u
          { usr with
              failed_attempts := (usr.failed_attempts + 1) % 256
              last_failed_attempt := now
              is_locked := if MAX_FAILED_ATTEMPTS ≤ (usr.failed_attempts + 1) % 256
                then true else usr.is_locked }) := by
  unfold authenticate_user
  rw [hfind]
  simp [hlock, verify_encoded, hpw]

/-- Wrong-password attempts below the lock threshold: the counter adds up,
the account stays unlocked, and every other field but the failure timestamp
is preserved. -/
theorem authAttempts_wrong_password (ts : List Nat) :
    ∀ (db : AuthDB) (u p' : Str) (usr : User),
      alistFind db u = some usr → usr.is_locked = false →
      usr.password_hash.password ≠ p' →
      usr.failed_attempts + ts.length < MAX_FAILED_ATTEMPTS →
      ∃ tl, alistFind (authAttempts db u p' ts) u
        = some { usr with
            failed_attempts := usr.failed_attempts + ts.length
            last_failed_attempt := tl } := by
  induction ts with
  | nil =>
    intro db u p' usr hfind hlock hpw _
    refine ⟨usr.last_failed_attempt, ?_⟩
    simpa [authAttempts] using hfind
  | cons t ts ih =>
    intro db u p' usr hfind hlock hpw hcount
    simp only [List.length_cons, MAX_FAILED_ATTEMPTS] at hcount
    have hmod : (usr.failed_attempts + 1) % 256 = usr.failed_attempts + 1 :=
      Nat.mod_eq_of_lt (by omega)
    have hnolock : ¬ MAX_FAILED_ATTEMPTS ≤ (usr.failed_attempts + 1) % 256 := by
      rw [hmod]
      simp only [MAX_FAILED_ATTEMPTS]
      omega
    have hstep := authenticate_fail_step db u p' t usr hfind hlock hpw
    rw [if_neg hnolock] at hstep
    have hrec := ih (alistPut db u
        { usr with
            failed_attempts := (usr.failed_attempts + 1) % 256
            last_failed_attempt := t
            is_locked := usr.is_locked }) u p'
        { usr with
            failed_attempts := (usr.failed_attempts + 1) % 256
            last_failed_attempt := t
            is_locked := usr.is_locked }
        (alistFind_put_same db u _) (by simpa using hlock) (by simpa using hpw)
        (by simp only [hmod, MAX_FAILED_ATTEMPTS] at hcount ⊢; omega)
    obtain ⟨tl, htl⟩ := hrec
    refine ⟨tl, ?_⟩
    simp only [authAttempts, hstep]
    rw [htl]
    have : (usr.failed_attempts + 1) % 256 + ts.length
        = usr.failed_attempts + (ts.length + 1) := by rw [hmod]; omega
    simp [this]

/-- The table after any `authenticate_user` call is either untouched or an
insert-or-replace of the called username. -/
theorem authenticate_state_shape (db : AuthDB) (u' p : Str) (t : Nat) :
    (authenticate_user db u' p t).2 = db
    ∨ ∃ v, (authenticate_user db u' p t).2 = alistPut db u' v := by
  unfold authenticate_user
  rcases alistFind db u' with _ | usr'
  · left; rfl
  · dsimp only
    by_cases hl : usr'.is_locked = true
    · left; simp [hl]
    · have hl2 : usr'.is_locked = false := by
        revert hl; cases usr'.is_locked <;> simp
      by_cases hv : verify_encoded usr'.password_hash p = true
      · exact Or.inr ⟨_, by simp [hl2, hv]; rfl⟩
      · exact Or.inr ⟨_, by simp [hl2, hv]; rfl⟩

/-- `authenticate_user` never clears a set lock flag. -/
theorem authenticate_keeps_lock (db : AuthDB) (u u' p : Str) (t : Nat)
    (h : (alistFind db u).map User.is_locked = some true) :
    (alistFind (authenticate_user db u' p t).2 u).map User.is_locked = some true := by
  rcases hfound : alistFind db u with _ | usr
  · rw [hfound] at h
    exact Option.noConfusion h
  · rw [hfound] at h
    simp only [Option.map] at h
    have hlock : usr.is_locked = true := Option.some.injEq _ _ |>.mp h
    by_cases hid : u' = u
    · subst hid
      rw [authenticate_locked db u' p t usr hfound hlock]
      rw [hfound]
      simp [hlock]
    · rcases authenticate_state_shape db u' p t with hdb | ⟨v, hput⟩
      · rw [hdb, hfound]
        simp [hlock]
      · rw [hput, alistFind_put_other db v hid, hfound]
        simp [hlock]

end Auth

/-- C3 (amended): registering an identity and then failing authentication
`MAX_FAILED_ATTEMPTS = 5` consecutive times (four attempts via
`authAttempts`, then a fifth) sets the lock flag; a subsequent call with the
correct password still fails with the account-locked error and leaves the
table untouched; and no `authenticate_user` call ever clears a set lock flag.
(The original claim's "no operation of this core ever clears the flag" fails:
`register_user` on the same username installs a fresh unlocked record — see
the counterexample.) -/
theorem C3_amended_lockout (u pw p' role : Str) (salt : List Nat)
    (t0 t5 t6 : Nat) (ts : List Nat) (hp : pw ≠ p') (hlen : ts.length = 4) :
    (∃ usr, alistFind (Auth.authenticate_user
        (Auth.authAttempts (Auth.register_user [] u pw role salt t0) u p' ts) u p' t5).2 u
        = some usr
      ∧ usr.is_locked = true ∧ usr.failed_attempts = Auth.MAX_FAILED_ATTEMPTS)
    ∧ Auth.authenticate_user (Auth.authenticate_user
        (Auth.authAttempts (Auth.register_user [] u pw role salt t0) u p' ts) u p' t5).2 u pw t6
        = (Except.error (str "Account locked due to too many failed attempts."),
          (Auth.authenticate_user
            (Auth.authAttempts (Auth.register_user [] u pw role salt t0) u p' ts) u p' t5).2)
    ∧ (∀ (db : Auth.AuthDB) (uq uc pc : Str) (tc : Nat),
        (alistFind db uq).map Auth.User.is_locked = some true →
        (alistFind (Auth.authenticate_user db uc pc tc).2 uq).map Auth.User.is_locked
          = some true) := by
  have hfind0 : alistFind (Auth.register_user [] u pw role salt t0) u
      = some { username := u, password_hash := Auth.hash_encoded pw salt, role := role,
               failed_attempts := 0, last_failed_attempt := t0, is_locked := false } :=
    alistFind_put_same [] u _
  obtain ⟨tl, h4⟩ := Auth.authAttempts_wrong_password ts
    (Auth.register_user [] u pw role salt t0) u p' _ hfind0 rfl
    (by simpa [Auth.hash_encoded] using hp)
    (by simp [hlen, Auth.MAX_FAILED_ATTEMPTS])
  dsimp only at h4
  rw [hlen] at h4
  simp only [Nat.zero_add] at h4
  have step5 := Auth.authenticate_fail_step _ u p' t5 _ h4 rfl
    (by simpa [Auth.hash_encoded] using hp)
  norm_num [Auth.MAX_FAILED_ATTEMPTS] at step5
  have hfind5 : alistFind (Auth.authenticate_user
      (Auth.authAttempts (Auth.register_user [] u pw role salt t0) u p' ts) u p' t5).2 u
      = some { username := u, password_hash := Auth.hash_encoded pw salt, role := role,
               failed_attempts := 5, last_failed_attempt := t5,
               is_locked := true } := by
    rw [step5]
    exact alistFind_put_same _ u _
  refine ⟨⟨_, hfind5, rfl, by simp [Auth.MAX_FAILED_ATTEMPTS]⟩, ?_, ?_⟩
  · exact Auth.authenticate_locked _ u pw t6 _ hfind5 rfl
  · intro db uq uc pc tc hq
    exact Auth.authenticate_keeps_lock db uq uc pc tc hq

/-- Witness for C3 (amended) at a concrete identity and attempt schedule. -/
theorem C3_witness :
    str "a" ≠ str "b"
    ∧ ([1, 2, 3, 4] : List Nat).length = 4
    ∧ (∃ usr, alistFind (Auth.authenticate_user
        (Auth.authAttempts (Auth.register_user [] (str "alice") (str "a") (str "user") [7] 0)
          (str "alice") (str "b") [1, 2, 3, 4]) (str "alice") (str "b") 5).2 (str "alice")
        = some usr
      ∧ usr.is_locked = true ∧ usr.failed_attempts = Auth.MAX_FAILED_ATTEMPTS)
    ∧ (Auth.authenticate_user (Auth.authenticate_user
        (Auth.authAttempts (Auth.register_user [] (str "alice") (str "a") (str "user") [7] 0)
          (str "alice") (str "b") [1, 2, 3, 4]) (str "alice") (str "b") 5).2
        (str "alice") (str "a") 6).1
        = Except.error (str "Account locked due to too many failed attempts.") := by
  obtain ⟨ha, hb, _⟩ := C3_amended_lockout (str "alice") (str "a") (str "b") (str "user")
    [7] 0 5 6 [1, 2, 3, 4] (by decide) (by decide)
  exact ⟨by decide, by decide, ha, by rw [hb]⟩

/-- C3 counterexample: after five wrong-password attempts the account is
locked, but a fresh `register_user` call for the same username resets the
flag — so "no operation of this core ever clears the flag once set" fails on
the code. -/
theorem C3_counterexample_register_clears_lock :
    (alistFind
        (Auth.authAttempts (Auth.register_user [] (str "alice") (str "a") (str "user") [7] 0)
          (str "alice") (str "b") [1, 2, 3, 4, 5]) (str "alice")).map Auth.User.is_locked
      = some true
    ∧ (alistFind
        (Auth.register_user
          (Auth.authAttempts (Auth.register_user [] (str "alice") (str "a") (str "user") [7] 0)
            (str "alice") (str "b") [1, 2, 3, 4, 5])
          (str "alice") (str "a") (str "user") [7] 9) (str "alice")).map Auth.User.is_locked
      = some false := by
  constructor
  · decide
  · decide

/-- C4 counterexample: registering `"alice"` a second time does not fail with
a duplicate-identity error — `register_user` returns no `Result` at all — and
the existing record is not left unchanged: the stored role flips from
`"user"` to `"admin"`. -/
theorem C4_counterexample_register_overwrites :
    (alistFind (Auth.register_user
        (Auth.register_user [] (str "alice") (str "pw1") (str "user") [7] 11)
        (str "alice") (str "pw2") (str "admin") [9] 22) (str "alice")).map Auth.User.role
      = some (str "admin")
    ∧ some (str "admin") ≠ some (str "user") := by
  constructor
  · decide
  · decide

/-- C4 (amended): `register_user` never fails; registering a username that
already exists replaces the stored record with a fresh one (new hash, new
role, zeroed counter, unlocked). -/
theorem C4_amended_register_replaces (db : Auth.AuthDB) (username password role : Str)
    (salt : List Nat) (now : Nat) :
    alistFind (Auth.register_user db username password role salt now) username
      = some { username := username, password_hash := Auth.hash_encoded password salt,
               role := role, failed_attempts := 0, last_failed_attempt := now,
               is_locked := false } :=
  alistFind_put_same db username _

/-- C7: `has_permission` returns `true` exactly when the role is present in
the table and its permission list contains the distinguished `"ALL"` token or
the exact action token; for an unknown role it returns `false` for every
action (it is a total function — the miss is not an error). -/
theorem C7_is_permitted_characterization (roles : List (Str × AccessControl.Role))
    (role action : Str) :
    (AccessControl.has_permission roles role action = true
      ↔ ∃ rd : AccessControl.Role, alistFind roles role = some rd
          ∧ (str "ALL" ∈ rd.permissions ∨ action ∈ rd.permissions))
    ∧ (alistFind roles role = none →
        AccessControl.has_permission roles role action = false) := by
  rcases h : alistFind roles role with _ | rd
  · simp [AccessControl.has_permission, h]
  · simp [AccessControl.has_permission, h, List.elem_iff]

/-- Witness for C7: the unknown role `"nobody"` is denied on the initial
role table (fails closed). -/
theorem C7_witness :
    alistFind AccessControl.new (str "nobody") = none
    ∧ AccessControl.has_permission AccessControl.new (str "nobody") (str "READ") = false := by
  refine ⟨by decide, ?_⟩
  exact (C7_is_permitted_characterization AccessControl.new (str "nobody") (str "READ")).2
    (by decide)

theorem isBytes_append {a b : List Nat} (ha : isBytes a) (hb : isBytes b) :
    isBytes (a ++ b) := by
  intro x hx
  rcases List.mem_append.mp hx with h | h
  · exact ha x h
  · exact hb x h

theorem isBytes_cons {a : Nat} {l : List Nat} (ha : a < 256) (hl : isBytes l) :
    isBytes (a :: l) := by
  intro x hx
  rcases List.mem_cons.mp hx with h | h
  · omega
  · exact hl x h

theorem wordToBytes_isBytes (w : Nat) : isBytes (wordToBytes w) := by
  intro b hb
  simp only [wordToBytes, List.mem_cons, List.not_mem_nil, or_false] at hb
  rcases hb with h | h | h | h <;> omega

theorem sha256_isBytes (msg : List Nat) : isBytes (Sha2.sha256 msg) := by
  intro b hb
  unfold Sha2.sha256 at hb
  simp only [List.mem_flatten, List.mem_map] at hb
  obtain ⟨l, ⟨w, _, rfl⟩, hbl⟩ := hb
  exact wordToBytes_isBytes w b hbl

theorem hmacSha256_isBytes (key msg : List Nat) : isBytes (Sha2.hmacSha256 key msg) := by
  unfold Sha2.hmacSha256
  exact sha256_isBytes _

namespace Base64

/-- Decoding inverts encoding on each alphabet character. -/
theorem decByte_encByte : ∀ n, n < 64 → decByte (encByte n) = some n := by decide

/-- No alphabet character is the padding character `'='`. -/
theorem encByte_ne_pad : ∀ n, n < 64 → encByte n ≠ 61 := by decide

/-- No character the encoder can emit is `'.'`: in-range sextets map into the
alphabet, and out-of-range indices fall back to `getD`'s default `'A'`. -/
theorem encByte_ne_dot : ∀ n : Nat, encByte n ≠ 46 := by
  intro n
  by_cases h : n < 64
  · exact (by decide : ∀ m, m < 64 → encByte m ≠ 46) n h
  · have hd : encByte n = 65 := by
      unfold encByte
      apply List.getD_eq_default
      have hlen : alphabet.length = 64 := by decide
      omega
    rw [hd]
    decide

/-- The base64 encoding of any input contains no `'.'`. -/
theorem encodeChunks_no_dot : ∀ bs : List Nat, 46 ∉ encodeChunks bs := by
  intro bs
  induction bs using encodeChunks.induct with
  | case1 =>
    intro h
    simp [encodeChunks] at h
  | case2 a =>
    intro h
    simp only [encodeChunks, List.mem_cons, List.not_mem_nil, or_false] at h
    rcases h with h | h | h | h
    · exact encByte_ne_dot (a / 4) h.symm
    · exact encByte_ne_dot (a % 4 * 16) h.symm
    · omega
    · omega
  | case3 a b =>
    intro h
    simp only [encodeChunks, List.mem_cons, List.not_mem_nil, or_false] at h
    rcases h with h | h | h | h
    · exact encByte_ne_dot (a / 4) h.symm
    · exact encByte_ne_dot (a % 4 * 16 + b / 16) h.symm
    · exact encByte_ne_dot (b % 16 * 4) h.symm
    · omega
  | case4 a b c rest ih =>
    intro h
    simp only [encodeChunks, List.mem_cons] at h
    rcases h with h | h | h | h | h
    · exact encByte_ne_dot (a / 4) h.symm
    · exact encByte_ne_dot (a % 4 * 16 + b / 16) h.symm
    · exact encByte_ne_dot (b % 16 * 4 + c / 64) h.symm
    · exact encByte_ne_dot (c % 64) h.symm
    · exact ih h

/-- Decoding inverts encoding on byte lists. -/
theorem decodeChunks_encodeChunks : ∀ bs : List Nat, isBytes bs →
    decodeChunks (encodeChunks bs) = some bs := by
  intro bs
  induction bs using encodeChunks.induct with
  | case1 => intro _; rfl
  | case2 a =>
    intro hb
    have ha : a < 256 := hb a (by simp)
    simp only [encodeChunks, decodeChunks]
    rw [decByte_encByte (a / 4) (by omega), decByte_encByte (a % 4 * 16) (by omega)]
    dsimp only
    rw [if_pos trivial]
    have hz : a % 4 * 16 % 16 = 0 := by omega
    rw [if_pos ⟨trivial, trivial, hz⟩]
    simp only [Option.some.injEq, List.cons.injEq, and_true]
    omega
  | case3 a b =>
    intro hb
    have ha : a < 256 := hb a (by simp)
    have hbb : b < 256 := hb b (by simp)
    simp only [encodeChunks, decodeChunks]
    rw [decByte_encByte (a / 4) (by omega),
      decByte_encByte (a % 4 * 16 + b / 16) (by omega)]
    dsimp only
    rw [if_neg (encByte_ne_pad (b % 16 * 4) (by omega))]
    rw [decByte_encByte (b % 16 * 4) (by omega)]
    dsimp only
    rw [if_pos trivial]
    have hz : b % 16 * 4 % 4 = 0 := by omega
    rw [if_pos ⟨trivial, hz⟩]
    simp only [Option.some.injEq, List.cons.injEq, and_true]
    omega
  | case4 a b c rest ih =>
    intro hb
    have ha : a < 256 := hb a (by simp)
    have hbb : b < 256 := hb b (by simp)
    have hc : c < 256 := hb c (by simp)
    have hrest : isBytes rest := fun x hx => hb x (by simp [hx])
    simp only [encodeChunks, decodeChunks]
    rw [decByte_encByte (a / 4) (by omega),
      decByte_encByte (a % 4 * 16 + b / 16) (by omega)]
    dsimp only
    rw [if_neg (encByte_ne_pad (b % 16 * 4 + c / 64) (by omega))]
    rw [decByte_encByte (b % 16 * 4 + c / 64) (by omega)]
    dsimp only
    rw [if_neg (encByte_ne_pad (c % 64) (by omega))]
    rw [decByte_encByte (c % 64) (by omega), ih hrest]
    dsimp only
    simp only [Option.some.injEq, List.cons.injEq, and_true]
    omega

/-- `decode ∘ encode = some` on byte lists. -/
theorem decode_encode (bs : List Nat) (h : isBytes bs) : decode (encode bs) = some bs :=
  decodeChunks_encodeChunks bs h

/-- `encode` output contains no `'.'`. -/
theorem encode_no_dot (bs : List Nat) : 46 ∉ encode bs :=
  encodeChunks_no_dot bs

end Base64

theorem no_dot_append {a b : List Nat} (ha : 46 ∉ a) (hb : 46 ∉ b) : 46 ∉ a ++ b := by
  intro h
  rcases List.mem_append.mp h with h | h
  · exact ha h
  · exact hb h

/-- Splitting `h ++ "." ++ p ++ "." ++ s` on `'.'` yields `[h, p, s]` when no
part contains a `'.'`. -/
theorem splitOn_three {h p s : List Nat} (hh : 46 ∉ h) (hp : 46 ∉ p) (hs : 46 ∉ s) :
    (h ++ [46] ++ p ++ [46] ++ s).splitOn 46 = [h, p, s] := by
  have he : [46].intercalate [h, p, s] = h ++ [46] ++ p ++ [46] ++ s := by
    simp [List.intercalate]
  have hx : ∀ l ∈ ([h, p, s] : List (List Nat)), 46 ∉ l := by
    intro l hl
    simp only [List.mem_cons, List.not_mem_nil, or_false] at hl
    rcases hl with rfl | rfl | rfl <;> assumption
  have hsplit := List.splitOn_intercalate [h, p, s] 46 hx (by simp)
  rw [← he]
  exact hsplit

/-- Splitting `p ++ "." ++ s` on `'.'` yields `[p, s]` when neither part
contains a `'.'`. -/
theorem splitOn_two {p s : List Nat} (hp : 46 ∉ p) (hs : 46 ∉ s) :
    (p ++ [46] ++ s).splitOn 46 = [p, s] := by
  have he : [46].intercalate [p, s] = p ++ [46] ++ s := by
    simp [List.intercalate]
  have hx : ∀ l ∈ ([p, s] : List (List Nat)), 46 ∉ l := by
    intro l hl
    simp only [List.mem_cons, List.not_mem_nil, or_false] at hl
    rcases hl with rfl | rfl <;> assumption
  have hsplit := List.splitOn_intercalate [p, s] 46 hx (by simp)
  rw [← he]
  exact hsplit

/-- A bearer token splits on `'.'` into exactly its three base64 components
(header, payload, HMAC), for every subject: the base64 alphabet contains no
`'.'`. -/
theorem generate_jwt_splitOn (u : Str) (t : Nat) :
    (Auth.generate_jwt u t).splitOn 46
      = [Base64.encode (str "\x7b\"alg\":\"HS256\",\"typ\":\"JWT\"\x7d"),
         Base64.encode (str "\x7b\"sub\":\"" ++ u ++ str "\",\"exp\":"
            ++ natDigits (t + Auth.TOKEN_EXPIRATION) ++ str "\x7d"),
         Base64.encode (Sha2.hmacSha256 Auth.MFA_SECRET
            (Base64.encode (str "\x7b\"alg\":\"HS256\",\"typ\":\"JWT\"\x7d") ++ [46]
              ++ Base64.encode (str "\x7b\"sub\":\"" ++ u ++ str "\",\"exp\":"
                  ++ natDigits (t + Auth.TOKEN_EXPIRATION) ++ str "\x7d")))] := by
  exact splitOn_three (Base64.encode_no_dot _) (Base64.encode_no_dot _)
    (Base64.encode_no_dot _)

/-- The token-service round trip: a freshly issued bearer token verifies. -/
theorem verify_generate_jwt (u : Str) (t : Nat) :
    Auth.verify_jwt (Auth.generate_jwt u t) = true := by
  unfold Auth.verify_jwt
  have hlen : ∀ x y z : List Nat, ([x, y, z] : List (List Nat)).length = 3 :=
    fun _ _ _ => rfl
  have h0 : ∀ x y z : List Nat, ([x, y, z] : List (List Nat)).getD 0 [] = x :=
    fun _ _ _ => rfl
  have h1 : ∀ x y z : List Nat, ([x, y, z] : List (List Nat)).getD 1 [] = y :=
    fun _ _ _ => rfl
  have h2 : ∀ x y z : List Nat, ([x, y, z] : List (List Nat)).getD 2 [] = z :=
    fun _ _ _ => rfl
  rw [generate_jwt_splitOn u t]
  dsimp only
  rw [hlen, h0, h1, h2]
  rw [if_neg (by norm_num : ¬ (3 : Nat) ≠ 3)]
  rw [Base64.decode_encode _ (hmacSha256_isBytes _ _)]
  dsimp only
  simp

namespace SessionManagement

theorem commaJoin_mem {x : Nat} : ∀ {ls : List (List Nat)},
    x ∈ commaJoin ls → x = 44 ∨ x = 32 ∨ ∃ l ∈ ls, x ∈ l := by
  intro ls
  induction ls with
  | nil => intro h; simp [commaJoin] at h
  | cons l rest ih =>
    intro h
    cases rest with
    | nil =>
      right; right
      exact ⟨l, by simp, h⟩
    | cons l' rest' =>
      rcases List.mem_append.mp h with h | h
      · exact Or.inr (Or.inr ⟨l, by simp, h⟩)
      · rcases List.mem_cons.mp h with rfl | h
        · exact Or.inl rfl
        · rcases List.mem_cons.mp h with rfl | h
          · exact Or.inr (Or.inl rfl)
          · rcases ih h with h | h | ⟨l'', hl'', hx⟩
            · exact Or.inl h
            · exact Or.inr (Or.inl h)
            · exact Or.inr (Or.inr ⟨l'', by simp [List.mem_cons.mp hl''], hx⟩)

theorem hexByteDebug_no_dot {b : Nat} (_hb : b < 256) : 46 ∉ hexByteDebug b := by
  have hdig : ∀ d : Nat, (if d < 10 then 48 + d else 87 + d) ≠ 46 := by
    intro d
    split <;> omega
  intro h
  unfold hexByteDebug at h
  dsimp only at h
  by_cases hb16 : b < 16
  · rw [if_pos hb16] at h
    simp only [List.mem_cons, List.not_mem_nil, or_false] at h
    exact hdig b h.symm
  · rw [if_neg hb16] at h
    simp only [List.mem_cons, List.not_mem_nil, or_false] at h
    rcases h with h | h
    · exact hdig (b / 16) h.symm
    · exact hdig (b % 16) h.symm

/-- The debug-hex rendering of a byte list contains no `'.'`. -/
theorem hexDebug_no_dot {bs : List Nat} (h : isBytes bs) : 46 ∉ hexDebug bs := by
  intro hx
  unfold hexDebug at hx
  rcases List.mem_cons.mp hx with h91 | hx
  · omega
  · rcases List.mem_append.mp hx with hx | hx
    · rcases commaJoin_mem hx with h44 | h32 | ⟨l, hl, hxl⟩
      · omega
      · omega
      · obtain ⟨b, hb, rfl⟩ := List.mem_map.mp hl
        exact hexByteDebug_no_dot (h b hb) hxl
    · simp only [List.mem_cons, List.not_mem_nil, or_false] at hx
      omega

/-- The ad hoc hash output consists of bytes. -/
theorem sha256_fake_isBytes (data : List Nat) : isBytes (sha256 data) := by
  intro b hb
  unfold sha256 at hb
  have hb' := List.mem_of_mem_take hb
  rcases List.mem_flatten.mp hb' with ⟨s, hs, hbs⟩
  rw [List.eq_of_mem_replicate hs] at hbs
  exact wordToBytes_isBytes _ b hbs

end SessionManagement

/-- A session token splits on `'.'` into its JSON payload and debug-hex hash
exactly when the subject and the IP contain no `'.'` themselves. -/
theorem create_session_token_splitOn (st : SessionManagement.Store) (u ip : Str)
    (t : Nat) (hnu : 46 ∉ u) (hip : 46 ∉ ip) :
    ((SessionManagement.create_session st u ip t).1).splitOn 46
      = [str "\x7b\"sub\":\"" ++ u ++ str "\",\"exp\":"
           ++ natDigits (t + SessionManagement.SESSION_EXPIRATION)
           ++ str ",\"ip\":\"" ++ ip ++ str "\"\x7d",
         SessionManagement.hexDebug (SessionManagement.sha256
          (str "\x7b\"sub\":\"" ++ u ++ str "\",\"exp\":"
            ++ natDigits (t + SessionManagement.SESSION_EXPIRATION)
            ++ str ",\"ip\":\"" ++ ip ++ str "\"\x7d"))] := by
  have hpl : 46 ∉ (str "\x7b\"sub\":\"" ++ u ++ str "\",\"exp\":"
      ++ natDigits (t + SessionManagement.SESSION_EXPIRATION)
      ++ str ",\"ip\":\"" ++ ip ++ str "\"\x7d") :=
    no_dot_append
      (no_dot_append
        (no_dot_append
          (no_dot_append
            (no_dot_append
              (no_dot_append (by decide) hnu)
              (by decide))
            (natDigits_no_dot _))
          (by decide))
        hip)
      (by decide)
  exact splitOn_two hpl
    (SessionManagement.hexDebug_no_dot (SessionManagement.sha256_fake_isBytes _))

/-- C1 (code bug): `create_session("bob", "10.0.0.5")` at Unix second 1000
records a session binding identity `"bob"` — yet `verify_session` on that
very token, with the *correct* IP and well before expiry, returns `false`.
The JSON payload contains the dotted IPv4 address, so `token.split('.')`
yields five parts, and the `parts.len() == 2` guard rejects the token the
module itself just issued (the mismatched IP `"10.0.0.9"` is of course also
rejected, but for the same wrong reason rather than as a detected hijack). -/
theorem C1_code_bug_correct_ip_validation_fails :
    SessionManagement.verify_session
        (SessionManagement.create_session [] (str "bob") (str "10.0.0.5") 1000).2
        (SessionManagement.create_session [] (str "bob") (str "10.0.0.5") 1000).1
        (str "10.0.0.5") 1000 = false
    ∧ SessionManagement.verify_session
        (SessionManagement.create_session [] (str "bob") (str "10.0.0.5") 1000).2
        (SessionManagement.create_session [] (str "bob") (str "10.0.0.5") 1000).1
        (str "10.0.0.9") 1000 = false
    ∧ alistFind (SessionManagement.create_session [] (str "bob") (str "10.0.0.5") 1000).2
        (SessionManagement.create_session [] (str "bob") (str "10.0.0.5") 1000).1
      = some (str "bob", 1000 + SessionManagement.SESSION_EXPIRATION, str "10.0.0.5") := by
  refine ⟨?_, ?_, ?_⟩
  · decide
  · decide
  · decide

/-- C2 (code bug): `verify_jwt` never consults a clock — the Rust body reads
no time source at all — so a token issued at Unix second 1000, carrying the
embedded expiry 4600, still verifies at *every* later instant; verification
after expiry does not fail. -/
theorem C2_code_bug_verify_ignores_expiry :
    Auth.verify_jwt (Auth.generate_jwt (str "alice") 1000) = true :=
  verify_generate_jwt (str "alice") 1000

/-- C6 (amended): the token-service round trip holds in its boolean form —
for every subject (a byte string) and issue instant, `verify_jwt` accepts a
freshly issued token.  `verify_jwt` returns only that boolean; it does not
return the subject. -/
theorem C6_amended_roundtrip (u : Str) (t : Nat) (hu : isBytes u) :
    Auth.verify_jwt (Auth.generate_jwt u t) = true := by
  have _hb := hu
  exact verify_generate_jwt u t

/-- Witness for C6 (amended) at subject `"carol"`, issue instant 42. -/
theorem C6_witness :
    isBytes (str "carol")
    ∧ Auth.verify_jwt (Auth.generate_jwt (str "carol") 42) = true :=
  ⟨by decide, C6_amended_roundtrip (str "carol") 42 (by decide)⟩

/-- C6 counterexample: verification returns the same boolean for two distinct
subjects, so `verify(issue(subject))` does not return (or determine) the
subject — the claimed `Ok(subject)` result does not exist in the code, whose
`verify_jwt` has type `&str -> bool`. -/
theorem C6_counterexample_subject_not_returned :
    Auth.verify_jwt (Auth.generate_jwt (str "alice") 0)
      = Auth.verify_jwt (Auth.generate_jwt (str "bob") 0)
    ∧ str "alice" ≠ str "bob" := by
  constructor
  · rw [verify_generate_jwt (str "alice") 0, verify_generate_jwt (str "bob") 0]
  · decide

/-- C8 counterexample: a bearer token is *three* dot-separated parts
(`header.payload.signature`, the standard JWT shape), not two: splitting the
token issued for subject `"a"` at instant 0 yields three components. -/
theorem C8_counterexample_bearer_three_parts :
    ((Auth.generate_jwt (str "a") 0).splitOn 46).length = 3 ∧ (3 : Nat) ≠ 2 := by
  constructor
  · rw [generate_jwt_splitOn (str "a") 0]
    rfl
  · decide

/-- The length of a `splitOnP` split is the number of separator positions
plus one. -/
theorem splitOnP_length_count (l : List Nat) :
    (l.splitOnP (· == 46)).length = l.count 46 + 1 := by
  induction l with
  | nil => rfl
  | cons a l ih =>
    rw [List.splitOnP_cons]
    by_cases ha : a = 46
    · subst ha
      simp [ih, List.count_cons]
    · simp [ha, ih, List.count_cons]

/-- Splitting on `'.'` yields exactly one part more than the number of `'.'`
occurrences. -/
theorem splitOn_length_count (l : List Nat) :
    (l.splitOn 46).length = l.count 46 + 1 :=
  splitOnP_length_count l

/-- The session payload contains a `'.'` exactly when the subject or the
issuing IP does: the JSON punctuation and the decimal expiry are dot-free. -/
theorem session_payload_dot_iff (u ip : Str) (t : Nat) :
    46 ∈ (str "\x7b\"sub\":\"" ++ u ++ str "\",\"exp\":"
        ++ natDigits (t + SessionManagement.SESSION_EXPIRATION)
        ++ str ",\"ip\":\"" ++ ip ++ str "\"\x7d")
      ↔ (46 ∈ u ∨ 46 ∈ ip) := by
  simp only [List.mem_append]
  constructor
  · rintro ((((((h | h) | h) | h) | h) | h) | h)
    · exact absurd h (by decide)
    · exact Or.inl h
    · exact absurd h (by decide)
    · exact absurd h (natDigits_no_dot _)
    · exact absurd h (by decide)
    · exact Or.inr h
    · exact absurd h (by decide)
  · rintro (h | h)
    · exact Or.inl (Or.inl (Or.inl (Or.inl (Or.inl (Or.inr h)))))
    · exact Or.inl (Or.inr h)

/-- C8 (amended): every issued bearer token splits on `'.'` into exactly
three components (base64 header, payload and MAC — the standard JWT shape),
for every subject and issue instant; and an issued session token splits into
exactly two components precisely when neither the subject nor the issuing IP
contains a `'.'` — in particular, with a dotted IPv4 address the payload
itself contains dots and the two-part structure is lost. -/
theorem C8_amended_token_structure (u ip : Str) (t : Nat)
    (st : SessionManagement.Store) :
    ((Auth.generate_jwt u t).splitOn 46).length = 3
    ∧ ((((SessionManagement.create_session st u ip t).1).splitOn 46).length = 2
        ↔ (46 ∉ u ∧ 46 ∉ ip)) := by
  constructor
  · rw [generate_jwt_splitOn u t]
    rfl
  · have htok : (SessionManagement.create_session st u ip t).1
        = (str "\x7b\"sub\":\"" ++ u ++ str "\",\"exp\":"
            ++ natDigits (t + SessionManagement.SESSION_EXPIRATION)
            ++ str ",\"ip\":\"" ++ ip ++ str "\"\x7d") ++ [46]
          ++ SessionManagement.hexDebug (SessionManagement.sha256
              (str "\x7b\"sub\":\"" ++ u ++ str "\",\"exp\":"
                ++ natDigits (t + SessionManagement.SESSION_EXPIRATION)
                ++ str ",\"ip\":\"" ++ ip ++ str "\"\x7d")) := rfl
    rw [htok, splitOn_length_count, List.count_append, List.count_append]
    have hhex : (SessionManagement.hexDebug (SessionManagement.sha256
        (str "\x7b\"sub\":\"" ++ u ++ str "\",\"exp\":"
          ++ natDigits (t + SessionManagement.SESSION_EXPIRATION)
          ++ str ",\"ip\":\"" ++ ip ++ str "\"\x7d"))).count 46 = 0 :=
      List.count_eq_zero.mpr
        (SessionManagement.hexDebug_no_dot (SessionManagement.sha256_fake_isBytes _))
    have hsep : ([46] : List Nat).count 46 = 1 := rfl
    rw [hhex, hsep]
    have hmem := session_payload_dot_iff u ip t
    constructor
    · intro h
      have hc : (str "\x7b\"sub\":\"" ++ u ++ str "\",\"exp\":"
          ++ natDigits (t + SessionManagement.SESSION_EXPIRATION)
          ++ str ",\"ip\":\"" ++ ip ++ str "\"\x7d").count 46 = 0 := by omega
      have hnm := List.count_eq_zero.mp hc
      rw [hmem] at hnm
      exact ⟨fun h1 => hnm (Or.inl h1), fun h2 => hnm (Or.inr h2)⟩
    · rintro ⟨h1, h2⟩
      have hnm : 46 ∉ (str "\x7b\"sub\":\"" ++ u ++ str "\",\"exp\":"
          ++ natDigits (t + SessionManagement.SESSION_EXPIRATION)
          ++ str ",\"ip\":\"" ++ ip ++ str "\"\x7d") := by
        rw [hmem]
        rintro (h | h)
        · exact h1 h
        · exact h2 h
      have hc := List.count_eq_zero.mpr hnm
      omega
